import Mathlib

/-!
# Verification of the dynamic-pricing Q-learning program

Shallow embedding of `src/code.py` (single-file tabular Q-learning for
airline ticket pricing).  Python floats are modelled by `ℝ` where the code
performs transcendental arithmetic (`exp`, `log`) and by `ℚ` for the
Q-table values (the update rule is field arithmetic only).  The stochastic
draws consumed by the training loop (`np.random.normal`,
`random.choice`, `random.uniform`, `np.random.binomial`) are modelled as
oracle inputs, so theorems quantify over every possible draw sequence.
-/

set_option maxHeartbeats 1000000

namespace DynamicPricing

/-- Booking-rate categories, the strings `'Low' | 'Medium' | 'High'`. -/
inductive Rate where
  | Low
  | Medium
  | High
deriving DecidableEq, Repr, Inhabited

/-- Competitor price categories, the strings `'Low' | 'Medium' | 'High'`. -/
inductive CompLevel where
  | Low
  | Medium
  | High
deriving DecidableEq, Repr, Inhabited

/-- Customer segments, the strings `'Economy' | 'Business'`. -/
inductive Seg where
  | Economy
  | Business
deriving DecidableEq, Repr, Inhabited

/-- `num_seats = 100` (module constant, line 9). -/
def num_seats : ℕ := 100

/-- `time_horizon = 12` (module constant, line 10). -/
def time_horizon : ℕ := 12

/-- `price_levels = list(range(100, 650+1, 20))`: the 28 prices
`[100, 120, ..., 640]` (line 11). -/
def price_levels : List ℕ := List.range' 100 28 20

/-- `customer_segments = ['Economy', 'Business']` (line 12). -/
def customer_segments : List Seg := [.Economy, .Business]

/-- `booking_rates = ['Low', 'Medium', 'High']` (line 13). -/
def booking_rates : List Rate := [.Low, .Medium, .High]

/-- `competitor_prices = ['Low', 'Medium', 'High']` (line 14). -/
def competitor_prices : List CompLevel := [.Low, .Medium, .High]

/-- `price_sensitivity = {'Economy': 0.002, 'Business': 0.001}[customer_segment]`
(line 30). -/
noncomputable def price_sensitivity (cs : Seg) : ℝ :=
  match cs with
  | .Economy => 0.002
  | .Business => 0.001

/-- `competitor_influence = {'Low': 0.75, 'Medium': 1.05, 'High': 1.3}[...]`
(line 31). -/
noncomputable def competitor_influence (cl : CompLevel) : ℝ :=
  match cl with
  | .Low => 0.75
  | .Medium => 1.05
  | .High => 1.3

/-- `customer_elasticity = 1.2 if customer_segment == 'Economy' else 0.8`
(line 32). -/
noncomputable def customer_elasticity (cs : Seg) : ℝ :=
  if cs = .Economy then 1.2 else 0.8

/-- `get_demand_probability` (lines 16–34): base probability `0.5` scaled by
`exp(-sensitivity * price ** elasticity) + 0.1`, multiplied by the competitor
influence, clamped to `[0.1, 1.0]` by `min(max(demand_prob, 0.1), 1.0)`. -/
noncomputable def get_demand_probability (price : ℝ) (cs : Seg) (cl : CompLevel) : ℝ :=
  min (max (0.5 * (Real.exp (-(price_sensitivity cs) * price ^ (customer_elasticity cs)) + 0.1)
    * competitor_influence cl) 0.1) 1.0

/-- `time_factor = np.log(1 + time_elapsed) if time_elapsed > 0 else 0`
(line 47). -/
noncomputable def time_factor (time_elapsed : ℝ) : ℝ :=
  if time_elapsed > 0 then Real.log (1 + time_elapsed) else 0

/-- `get_booking_rate` (lines 36–60): `rate = seats_sold / (1 + time_factor)`
compared against `low_threshold = num_seats / (4*time_horizon)`,
`medium_threshold = 3*num_seats / (5*time_horizon)`,
`high_threshold = num_seats / time_horizon`; the last two branches both return
`'High'`. -/
noncomputable def get_booking_rate (seats_sold time_elapsed : ℝ) : Rate :=
  let rate := seats_sold / (1 + time_factor time_elapsed)
  let low_threshold := (num_seats : ℝ) / (4 * time_horizon)
  let medium_threshold := (3 * num_seats : ℝ) / (5 * time_horizon)
  let high_threshold := (num_seats : ℝ) / time_horizon
  if rate < low_threshold then .Low
  else if rate < medium_threshold then .Medium
  else if rate < high_threshold then .High
  else .High

/-- `get_competitor_price_level` (lines 62–74).  The Gaussian fluctuation is an
oracle input `fluct : ℝ`; Python's float `%` on a nonnegative right operand
`y` is `x - y * ⌊x / y⌋`, and `int(·)` of the result (which lies in `[0, 3)`)
is its floor.  The resulting index selects from `['Low','Medium','High']`. -/
noncomputable def get_competitor_price_level (time : ℕ) (fluct : ℝ) : CompLevel :=
  let baseline_level : List CompLevel := [.Low, .Medium, .High]
  let shift_factor : ℝ := ((time : ℝ) / (time_horizon : ℝ)) * 3
  let x : ℝ := shift_factor + fluct
  let adjusted_level : ℤ := ⌊x - 3 * ⌊x / 3⌋⌋
  baseline_level.getD adjusted_level.toNat .Low

/-- Q-learning hyperparameters (lines 89–93): `alpha = 0.15`. -/
def alpha : ℚ := 15 / 100

/-- `gamma = 0.85` (line 91). -/
def gamma : ℚ := 85 / 100

/-- `epsilon = 0.2` (line 92). -/
def epsilon : ℚ := 2 / 10

/-- `episodes = 5000` (line 93). -/
def episodes : ℕ := 5000

/-- A state tuple `(seats_left, time, booking_rate, competitor_price,
customer_segment)` as appended to `states` (line 101). -/
abbrev MState : Type := ℕ × ℕ × Rate × CompLevel × Seg

/-- The state-space enumeration loop (lines 95–101), parametrised by the
configuration so that alternative configurations can be examined: five nested
`for` loops appending one tuple per combination. -/
def statesFor (ns th : ℕ) : List MState :=
  (List.range (ns + 1)).flatMap fun seats_left =>
    (List.range (th + 1)).flatMap fun time =>
      booking_rates.flatMap fun booking_rate =>
        competitor_prices.flatMap fun competitor_price =>
          customer_segments.map fun customer_segment =>
            (seats_left, time, booking_rate, competitor_price, customer_segment)

/-- `states` (lines 95–101) with the module configuration. -/
def states : List MState := statesFor num_seats time_horizon

/-- `actions = price_levels` (line 103). -/
def actions : List ℕ := price_levels

/-- The Q-table initialization loop (lines 104–107), parametrised by the
configuration: the dict `Q` is modelled as its list of key/value entries
`((state, action), 0.0)` in insertion order; all keys are distinct, so the
dict holds exactly these entries. -/
def qEntriesFor (ns th : ℕ) (pl : List ℕ) : List ((MState × ℕ) × ℚ) :=
  (statesFor ns th).flatMap fun state =>
    pl.map fun action => ((state, action), 0.0)

/-- The entries of `Q` after initialization (lines 104–107). -/
def qEntries : List ((MState × ℕ) × ℚ) := qEntriesFor num_seats time_horizon actions

/-- The State Space Builder (lines 95–107) viewed as a fallible computation:
the source performs no configuration validation and contains no `raise`, so
for every configuration it returns the enumerated states and the initialized
table without signalling any error. -/
def buildTables (ns th : ℕ) (pl : List ℕ) :
    Except String (List MState × List ((MState × ℕ) × ℚ)) :=
  Except.ok (statesFor ns th, qEntriesFor ns th pl)

/-- Python `max` over a nonempty list of floats (`max(q_values)`, lines 127,
152, 164): left fold of binary `max` over the tail starting from the head. -/
def pymax : List ℚ → ℚ
  | [] => 0
  | x :: xs => xs.foldl max x

/-- Python `random.choice(lst)`: the draw is modelled by an oracle index `i`,
reduced mod the length so that any index denotes a valid element. -/
def pychoice {α : Type} [Inhabited α] (l : List α) (i : ℕ) : α :=
  l.getD (i % l.length) default

/-- `best_actions = [a for a in actions if Q[(state, a)] == max_q]`
(lines 126–128 and 163–165), for a Q-table given as a total function on the
dense key set. -/
def best_actions (Q : MState × ℕ → ℚ) (state : MState) : List ℕ :=
  actions.filter fun a => decide (Q (state, a) = pymax (actions.map fun a => Q (state, a)))

/-- The Policy Extractor (lines 161–167): for each state, pick among
`best_actions` with a tie-break draw supplied by the oracle `idx`. -/
def optimal_policy (Q : MState × ℕ → ℚ) (idx : MState → ℕ) : MState → ℕ :=
  fun state => pychoice (best_actions Q state) (idx state)


/-- The stochastic draws consumed by one iteration of the episode `while`
loop (lines 117–156), in order of consumption: the Gaussian fluctuation
inside `get_competitor_price_level(time)` (line 119), the
`random.choice(customer_segments)` draw (line 120), the `random.uniform(0,1)`
epsilon draw (line 123), the `random.choice` indices for the explore and
exploit branches (lines 124, 129), the uniform draw behind
`np.random.binomial(1, demand_probability)` (line 132), and the Gaussian
fluctuation for the second `get_competitor_price_level(time)` call
(line 147). -/
structure Draw where
  comp_fluct : ℝ
  seg_idx : ℕ
  u : ℚ
  explore_idx : ℕ
  exploit_idx : ℕ
  sale_u : ℝ
  next_comp_fluct : ℝ

/-- The mutable episode variables (lines 111–115) together with the shared
Q-table, modelled as a total function on the dense key set. -/
structure EpState where
  seats_left : ℕ
  seats_sold : ℕ
  time : ℕ
  total_reward : ℕ
  time_elapsed : ℕ
  Q : MState × ℕ → ℚ

/-- The state observed at the top of the loop (lines 118–121). -/
noncomputable def obsState (d : Draw) (es : EpState) : MState :=
  (es.seats_left, es.time,
    get_booking_rate (es.seats_sold : ℝ) (es.time_elapsed : ℝ),
    get_competitor_price_level es.time d.comp_fluct,
    pychoice customer_segments d.seg_idx)

/-- Epsilon-greedy action selection (lines 123–129). -/
noncomputable def chooseAction (d : Draw) (es : EpState) : ℕ :=
  if d.u < epsilon then pychoice actions d.explore_idx
  else pychoice (best_actions es.Q (obsState d es)) d.exploit_idx

/-- `sale_occurred = np.random.binomial(1, demand_probability)`
(lines 131–132): the Bernoulli draw succeeds when the oracle's uniform value
falls below the computed demand probability. -/
noncomputable def saleOccurred (d : Draw) (es : EpState) : Prop :=
  d.sale_u < get_demand_probability (chooseAction d es : ℝ)
    (obsState d es).2.2.2.2 (obsState d es).2.2.2.1

noncomputable instance (d : Draw) (es : EpState) : Decidable (saleOccurred d es) :=
  Real.decidableLT _ _

/-- `seats_left` after the sale branch (lines 134–135). -/
noncomputable def nextSeatsLeft (d : Draw) (es : EpState) : ℕ :=
  if saleOccurred d es then es.seats_left - 1 else es.seats_left

/-- `seats_sold` after the sale branch (lines 134–136). -/
noncomputable def nextSeatsSold (d : Draw) (es : EpState) : ℕ :=
  if saleOccurred d es then es.seats_sold + 1 else es.seats_sold

/-- `reward = action` on a sale, else `0` (lines 137–139). -/
noncomputable def rewardOf (d : Draw) (es : EpState) : ℕ :=
  if saleOccurred d es then chooseAction d es else 0

/-- `next_state` assembled after `time -= 1` and `time_elapsed += 1`
(lines 143–148), reusing the same `customer_segment` draw. -/
noncomputable def nextState (d : Draw) (es : EpState) : MState :=
  (nextSeatsLeft d es, es.time - 1,
    get_booking_rate (nextSeatsSold d es : ℝ) ((es.time_elapsed : ℝ) + 1),
    get_competitor_price_level (es.time - 1) d.next_comp_fluct,
    pychoice customer_segments d.seg_idx)

/-- `max_future_q` (lines 150–154): the max of the next state's Q-row if
`next_state in states`, else the defensive `0`. -/
noncomputable def maxFutureQ (d : Draw) (es : EpState) : ℚ :=
  if nextState d es ∈ states then
    pymax (actions.map fun a => es.Q (nextState d es, a))
  else 0

/-- One full iteration of the episode `while` loop (lines 117–156),
culminating in the temporal-difference update
`Q[(state, action)] += alpha * (reward + gamma * max_future_q - Q[(state, action)])`. -/
noncomputable def loopBody (d : Draw) (es : EpState) : EpState where
  seats_left := nextSeatsLeft d es
  seats_sold := nextSeatsSold d es
  time := es.time - 1
  total_reward := es.total_reward + rewardOf d es
  time_elapsed := es.time_elapsed + 1
  Q := fun k =>
    if k = (obsState d es, chooseAction d es) then
      es.Q k + alpha * ((rewardOf d es : ℚ) + gamma * maxFutureQ d es - es.Q k)
    else es.Q k

/-- The per-episode re-initialization (lines 111–115): fresh counters, the
Q-table carried over from the previous episode. -/
def initEp (Q : MState × ℕ → ℚ) : EpState where
  seats_left := num_seats
  seats_sold := 0
  time := time_horizon - 1
  total_reward := 0
  time_elapsed := 0
  Q := Q

/-- The whole training run (lines 110–156) as a step-indexed transition
system: step `n` consumes the oracle's draw `o n`; while the loop guard
`time > 0 and seats_left > 0` holds the loop body runs, otherwise the episode
ends and the next one starts (first component counts completed episodes).
This reaches exactly the states every episode of the training loop passes
through, for any number of episodes. -/
noncomputable def trainStepN (o : ℕ → Draw) : ℕ → ℕ × EpState
  | 0 => (0, initEp fun _ => 0)
  | n + 1 =>
    let p := trainStepN o n
    if 0 < p.2.time ∧ 0 < p.2.seats_left then (p.1, loopBody (o n) p.2)
    else (p.1 + 1, initEp p.2.Q)

/-- One episode's `while` loop (lines 117–156) run to completion, returning
the final episode state together with the number of iterations executed. -/
noncomputable def runLoop (o : ℕ → Draw) (es : EpState) : EpState × ℕ :=
  if h : 0 < es.time ∧ 0 < es.seats_left then
    let r := runLoop (fun n => o (n + 1)) (loopBody (o 0) es)
    (r.1, r.2 + 1)
  else (es, 0)
termination_by es.time
decreasing_by
  have ht : (loopBody (o 0) es).time = es.time - 1 := rfl
  omega

/-- The maximum price level, `max(price_levels) = 640`. -/
def max_price : ℕ := 640

/-- The bound `max_price / (1 - gamma)` on Q-values claimed by the spec. -/
def qBound : ℚ := (max_price : ℚ) / (1 - gamma)

/-- The loop invariant: seats are conserved, time stays within the horizon,
and every Q-value lies in `[0, qBound]`. -/
def EpInv (es : EpState) : Prop :=
  es.seats_left + es.seats_sold = num_seats ∧
  es.time ≤ time_horizon ∧
  ∀ k, 0 ≤ es.Q k ∧ es.Q k ≤ qBound

section Helpers

lemma le_foldl_max (l : List ℚ) (a : ℚ) : a ≤ l.foldl max a := by
  induction l generalizing a with
  | nil => exact le_refl a
  | cons x xs ih => exact le_trans (le_max_left a x) (ih (max a x))

lemma mem_le_foldl_max (l : List ℚ) (a : ℚ) : ∀ x ∈ l, x ≤ l.foldl max a := by
  induction l generalizing a with
  | nil => intro x hx; cases hx
  | cons y ys ih =>
    intro x hx
    rcases List.mem_cons.mp hx with h | h
    · subst h
      exact le_trans (le_max_right a x) (le_foldl_max ys (max a x))
    · exact ih (max a y) x h

lemma foldl_max_mem (l : List ℚ) (a : ℚ) : l.foldl max a = a ∨ l.foldl max a ∈ l := by
  induction l generalizing a with
  | nil => exact Or.inl rfl
  | cons x xs ih =>
    rcases ih (max a x) with h | h
    · rcases max_cases a x with ⟨he, _⟩ | ⟨he, _⟩
      · rw [List.foldl_cons, h, he]; exact Or.inl rfl
      · rw [List.foldl_cons, h, he]; exact Or.inr (List.mem_cons_self x xs)
    · exact Or.inr (List.mem_cons_of_mem x h)

/-- `max(l)` is an element of `l` when `l` is nonempty. -/
lemma pymax_mem {l : List ℚ} (h : l ≠ []) : pymax l ∈ l := by
  cases l with
  | nil => exact absurd rfl h
  | cons x xs =>
    rcases foldl_max_mem xs x with h' | h'
    · rw [pymax, h']; exact List.mem_cons_self x xs
    · exact List.mem_cons_of_mem x (by rw [pymax]; exact h')

/-- Every element of `l` is at most `max(l)`. -/
lemma le_pymax {l : List ℚ} {x : ℚ} (hx : x ∈ l) : x ≤ pymax l := by
  cases l with
  | nil => cases hx
  | cons y ys =>
    rcases List.mem_cons.mp hx with h | h
    · subst h; exact le_foldl_max ys x
    · exact mem_le_foldl_max ys y x h

/-- `random.choice(l)` returns an element of `l` when `l` is nonempty. -/
lemma pychoice_mem {α : Type} [Inhabited α] {l : List α} (h : l ≠ []) (i : ℕ) :
    pychoice l i ∈ l := by
  have hlen : 0 < l.length := List.length_pos.mpr h
  have hlt : i % l.length < l.length := Nat.mod_lt i hlen
  rw [pychoice, List.getD_eq_getElem l default hlt]
  exact List.getElem_mem hlt

lemma actions_ne_nil : actions ≠ [] := by decide

lemma actions_le_640 : ∀ a ∈ actions, a ≤ 640 := by decide

/-- Members of `best_actions` are actions. -/
lemma best_actions_subset (Q : MState × ℕ → ℚ) (s : MState) :
    ∀ a ∈ best_actions Q s, a ∈ actions := by
  intro a ha
  exact List.mem_of_mem_filter ha

/-- `best_actions` is nonempty: the maximal Q-value is attained. -/
lemma best_actions_ne_nil (Q : MState × ℕ → ℚ) (s : MState) :
    best_actions Q s ≠ [] := by
  have hmap : (actions.map fun a => Q (s, a)) ≠ [] := by
    intro h
    exact actions_ne_nil (List.map_eq_nil_iff.mp h)
  have hmem := pymax_mem hmap
  rcases List.mem_map.mp hmem with ⟨a, ha, hqa⟩
  intro hnil
  have : a ∈ best_actions Q s := by
    rw [best_actions]
    exact List.mem_filter.mpr ⟨ha, decide_eq_true hqa⟩
  rw [hnil] at this
  cases this

/-- Every member of `best_actions` attains the row maximum. -/
lemma best_actions_maximize (Q : MState × ℕ → ℚ) (s : MState) :
    ∀ a ∈ best_actions Q s, ∀ b ∈ actions, Q (s, b) ≤ Q (s, a) := by
  intro a ha b hb
  rw [best_actions] at ha
  have h1 : Q (s, a) = pymax (actions.map fun a => Q (s, a)) :=
    of_decide_eq_true (List.mem_filter.mp ha).2
  have h2 : Q (s, b) ≤ pymax (actions.map fun a => Q (s, a)) :=
    le_pymax (List.mem_map.mpr ⟨b, hb, rfl⟩)
  rw [h1]
  exact h2

/-- The nested state-enumeration loops build the Cartesian product list. -/
lemma statesFor_eq_product (ns th : ℕ) :
    statesFor ns th =
      (List.range (ns + 1)) ×ˢ ((List.range (th + 1)) ×ˢ
        (booking_rates ×ˢ (competitor_prices ×ˢ customer_segments))) := by
  simp [statesFor, SProd.sprod, List.product, List.map_flatMap, List.map_map,
    Function.comp_def]

lemma statesFor_length (ns th : ℕ) :
    (statesFor ns th).length = (ns + 1) * ((th + 1) * 18) := by
  rw [statesFor_eq_product]
  simp [List.length_product, booking_rates, competitor_prices, customer_segments]

/-- Membership in the enumerated state space is exactly the bound conditions
on `seats_left` and `time`; the three enum fields always lie in their lists. -/
lemma mem_states_iff (sl t : ℕ) (br : Rate) (cp : CompLevel) (cs : Seg) :
    ((sl, t, br, cp, cs) : MState) ∈ states ↔ sl ≤ num_seats ∧ t ≤ time_horizon := by
  have hbr : br ∈ booking_rates := by cases br <;> simp [booking_rates]
  have hcp : cp ∈ competitor_prices := by cases cp <;> simp [competitor_prices]
  have hcs : cs ∈ customer_segments := by cases cs <;> simp [customer_segments]
  rw [states, statesFor_eq_product]
  simp [List.mem_range, Nat.lt_succ_iff, hbr, hcp, hcs]

lemma states_nodup : states.Nodup := by
  rw [states, statesFor_eq_product]
  exact (List.nodup_range _).product ((List.nodup_range _).product
    ((by decide : booking_rates.Nodup).product
      ((by decide : competitor_prices.Nodup).product
        (by decide : customer_segments.Nodup))))

end Helpers

section Invariants

lemma qBound_eq : qBound = 12800 / 3 := by
  norm_num [qBound, max_price, gamma]

/-- The selected action is always one of the price levels. -/
lemma chooseAction_mem (d : Draw) (es : EpState) : chooseAction d es ∈ actions := by
  rw [chooseAction]
  split
  · exact pychoice_mem actions_ne_nil _
  · exact best_actions_subset _ _ _
      (pychoice_mem (best_actions_ne_nil es.Q (obsState d es)) _)

lemma rewardOf_le (d : Draw) (es : EpState) : rewardOf d es ≤ max_price := by
  rw [rewardOf]
  split
  · exact actions_le_640 _ (chooseAction_mem d es)
  · exact Nat.zero_le _

/-- One temporal-difference update keeps a value inside `[0, qBound]`
whenever the old value, the bootstrap and the reward are in range. -/
lemma qUpdate_bounds {q m r : ℚ} (hq0 : 0 ≤ q) (hq1 : q ≤ qBound)
    (hm0 : 0 ≤ m) (hm1 : m ≤ qBound) (hr0 : 0 ≤ r) (hr1 : r ≤ (max_price : ℚ)) :
    0 ≤ q + alpha * (r + gamma * m - q) ∧
      q + alpha * (r + gamma * m - q) ≤ qBound := by
  have hB : qBound = 12800 / 3 := qBound_eq
  have ha : alpha = 15 / 100 := rfl
  have hg : gamma = 85 / 100 := rfl
  have hmp : (max_price : ℚ) = 640 := by norm_num [max_price]
  rw [hB] at hq1 hm1 ⊢
  rw [hmp] at hr1
  rw [ha, hg]
  constructor <;> linarith

lemma maxFutureQ_bounds (d : Draw) (es : EpState)
    (hQ : ∀ k, 0 ≤ es.Q k ∧ es.Q k ≤ qBound) :
    0 ≤ maxFutureQ d es ∧ maxFutureQ d es ≤ qBound := by
  rw [maxFutureQ]
  split
  · have hmap : (actions.map fun a => es.Q (nextState d es, a)) ≠ [] := by
      intro h
      exact actions_ne_nil (List.map_eq_nil_iff.mp h)
    rcases List.mem_map.mp (pymax_mem hmap) with ⟨a, _, hqa⟩
    rw [← hqa]
    exact hQ _
  · refine ⟨le_refl 0, ?_⟩
    rw [qBound_eq]
    norm_num

lemma initEp_inv (Q : MState × ℕ → ℚ) (hQ : ∀ k, 0 ≤ Q k ∧ Q k ≤ qBound) :
    EpInv (initEp Q) := by
  refine ⟨rfl, ?_, hQ⟩
  show time_horizon - 1 ≤ time_horizon
  omega

lemma loopBody_inv (d : Draw) (es : EpState) (h : EpInv es)
    (hseats : 0 < es.seats_left) : EpInv (loopBody d es) := by
  obtain ⟨hsum, htime, hQ⟩ := h
  refine ⟨?_, ?_, ?_⟩
  · show nextSeatsLeft d es + nextSeatsSold d es = num_seats
    rw [nextSeatsLeft, nextSeatsSold]
    split <;> omega
  · show es.time - 1 ≤ time_horizon
    omega
  · intro k
    have hk : (loopBody d es).Q k = (if k = (obsState d es, chooseAction d es) then
        es.Q k + alpha * ((rewardOf d es : ℚ) + gamma * maxFutureQ d es - es.Q k)
      else es.Q k) := rfl
    rw [hk]
    split
    · obtain ⟨hm0, hm1⟩ := maxFutureQ_bounds d es hQ
      exact qUpdate_bounds (hQ k).1 (hQ k).2 hm0 hm1 (Nat.cast_nonneg _)
        (by exact_mod_cast rewardOf_le d es)
    · exact hQ k

/-- The invariant holds at every point of every episode of the training run. -/
lemma trainStepN_inv (o : ℕ → Draw) (n : ℕ) : EpInv (trainStepN o n).2 := by
  induction n with
  | zero =>
    exact initEp_inv _ fun k => ⟨le_refl 0, by rw [qBound_eq]; norm_num⟩
  | succ n ih =>
    show EpInv (if 0 < (trainStepN o n).2.time ∧ 0 < (trainStepN o n).2.seats_left
      then ((trainStepN o n).1, loopBody (o n) (trainStepN o n).2)
      else ((trainStepN o n).1 + 1, initEp (trainStepN o n).2.Q)).2
    split
    case isTrue hg => exact loopBody_inv (o n) _ ih hg.2
    case isFalse hg => exact initEp_inv _ ih.2.2

/-- The episode loop runs at most `es.time` iterations. -/
lemma runLoop_count_le (o : ℕ → Draw) (es : EpState) : (runLoop o es).2 ≤ es.time := by
  generalize hn : es.time = n
  induction n using Nat.strong_induction_on generalizing o es with
  | _ n ih =>
    rw [runLoop]
    split
    case isTrue h =>
      have ht : (loopBody (o 0) es).time = es.time - 1 := rfl
      have h1 := ih (es.time - 1) (by omega) (fun k => o (k + 1)) (loopBody (o 0) es) ht
      simp only []
      omega
    case isFalse h => omega

end Invariants

section MoreHelpers

lemma mem_booking_rates (r : Rate) : r ∈ booking_rates := by
  cases r <;> decide

lemma mem_competitor_prices (c : CompLevel) : c ∈ competitor_prices := by
  cases c <;> decide

lemma mem_customer_segments (s : Seg) : s ∈ customer_segments := by
  cases s <;> decide

/-- After the time decrement, the assembled next state is in the enumerated
space whenever the current bounds hold. -/
lemma nextState_mem (d : Draw) (es : EpState) (h1 : es.seats_left ≤ num_seats)
    (h2 : es.time ≤ time_horizon) : nextState d es ∈ states := by
  have h3 : nextSeatsLeft d es ≤ es.seats_left := by
    rw [nextSeatsLeft]; split <;> omega
  simp only [nextState]
  rw [mem_states_iff]
  omega

/-- Unfolded branch structure of `get_booking_rate`. -/
lemma get_booking_rate_eq (s t : ℝ) :
    get_booking_rate s t =
      (if s / (1 + time_factor t) < (num_seats : ℝ) / (4 * time_horizon) then Rate.Low
      else if s / (1 + time_factor t) < (3 * num_seats : ℝ) / (5 * time_horizon) then Rate.Medium
      else if s / (1 + time_factor t) < (num_seats : ℝ) / time_horizon then Rate.High
      else Rate.High) := rfl

/-- The Q-entry construction is the product of states and price levels, each
paired with the value `0.0`. -/
lemma qEntriesFor_eq (ns th : ℕ) (pl : List ℕ) :
    qEntriesFor ns th pl = ((statesFor ns th) ×ˢ pl).map (fun k => (k, (0.0 : ℚ))) := by
  simp [qEntriesFor, SProd.sprod, List.product, List.map_flatMap, List.map_map,
    Function.comp_def]

lemma qEntries_fst_eq : qEntries.map Prod.fst = states ×ˢ actions := by
  rw [qEntries, qEntriesFor_eq, List.map_map]
  simp [Function.comp_def, states]

lemma price_sensitivity_pos (cs : Seg) : 0 < price_sensitivity cs := by
  cases cs <;> norm_num [price_sensitivity]

lemma customer_elasticity_pos (cs : Seg) : 0 < customer_elasticity cs := by
  cases cs
  · norm_num [customer_elasticity]
  · rw [customer_elasticity, if_neg (by decide)]
    norm_num

lemma competitor_influence_pos (cl : CompLevel) : 0 < competitor_influence cl := by
  cases cl <;> norm_num [competitor_influence]

/-- The unclamped demand expression is strictly decreasing in price on
`[0, ∞)`. -/
lemma demand_core_lt (cs : Seg) (cl : CompLevel) {p q : ℝ} (hp : 0 ≤ p) (hpq : p < q) :
    0.5 * (Real.exp (-(price_sensitivity cs) * q ^ (customer_elasticity cs)) + 0.1)
        * competitor_influence cl <
      0.5 * (Real.exp (-(price_sensitivity cs) * p ^ (customer_elasticity cs)) + 0.1)
        * competitor_influence cl := by
  have h1 : p ^ customer_elasticity cs < q ^ customer_elasticity cs :=
    Real.rpow_lt_rpow hp hpq (customer_elasticity_pos cs)
  have hs := price_sensitivity_pos cs
  have hc := competitor_influence_pos cl
  have h2 : Real.exp (-(price_sensitivity cs) * q ^ (customer_elasticity cs)) <
      Real.exp (-(price_sensitivity cs) * p ^ (customer_elasticity cs)) := by
    apply Real.exp_lt_exp.mpr
    nlinarith
  nlinarith

lemma clamp_mono {x y : ℝ} (h : x ≤ y) :
    min (max x 0.1) 1.0 ≤ min (max y 0.1) 1.0 :=
  min_le_min (max_le_max h (le_refl _)) (le_refl _)

/-- When the clamped value avoids both clamp bounds it equals the raw value. -/
lemma clamp_eq_self {x : ℝ} (h1 : min (max x 0.1) 1.0 ≠ 0.1)
    (h2 : min (max x 0.1) 1.0 ≠ 1.0) : min (max x 0.1) 1.0 = x := by
  rcases le_or_lt x 0.1 with h | h
  · exact absurd (by rw [max_eq_right h, min_eq_left (by norm_num)]) h1
  · have hmax : max x 0.1 = x := max_eq_left h.le
    rcases le_or_lt 1.0 x with h' | h'
    · exact absurd (by rw [hmax, min_eq_right h']) h2
    · rw [hmax, min_eq_left h'.le]

end MoreHelpers

section Claims

/-- C1: for every `seats_sold ≥ 0` and `time_elapsed ≥ 0`, `get_booking_rate`
returns `High` exactly when `rate = seats_sold / (1 + time_factor)` is at or
above `medium_threshold = 3*num_seats/(5*time_horizon)` (the `rate <
high_threshold` branch and the final `else` both return `High`), `Low` exactly
when `rate < num_seats/(4*time_horizon)`, and `Medium` exactly in between, so
only three outcomes exist and no fourth category is ever produced. -/
theorem get_booking_rate_trichotomy (seats_sold time_elapsed : ℝ)
    (hs : 0 ≤ seats_sold) (ht : 0 ≤ time_elapsed) :
    (get_booking_rate seats_sold time_elapsed = Rate.High ↔
      (3 * num_seats : ℝ) / (5 * time_horizon) ≤
        seats_sold / (1 + time_factor time_elapsed)) ∧
    (get_booking_rate seats_sold time_elapsed = Rate.Low ↔
      seats_sold / (1 + time_factor time_elapsed) <
        (num_seats : ℝ) / (4 * time_horizon)) ∧
    (get_booking_rate seats_sold time_elapsed = Rate.Medium ↔
      ((num_seats : ℝ) / (4 * time_horizon) ≤
          seats_sold / (1 + time_factor time_elapsed) ∧
        seats_sold / (1 + time_factor time_elapsed) <
          (3 * num_seats : ℝ) / (5 * time_horizon))) := by
  have hlm : (num_seats : ℝ) / (4 * time_horizon) <
      (3 * num_seats : ℝ) / (5 * time_horizon) := by
    norm_num [num_seats, time_horizon]
  rw [get_booking_rate_eq]
  split_ifs with h1 h2 h3
  · exact ⟨iff_of_false (by decide) (by push_neg; linarith),
      iff_of_true rfl h1,
      iff_of_false (by decide) (fun h => absurd h1 (not_lt.mpr h.1))⟩
  · exact ⟨iff_of_false (by decide) (not_le.mpr h2),
      iff_of_false (by decide) h1,
      iff_of_true rfl ⟨not_lt.mp h1, h2⟩⟩
  · exact ⟨iff_of_true rfl (not_lt.mp h2),
      iff_of_false (by decide) h1,
      iff_of_false (by decide) (fun h => absurd h.2 (not_lt.mpr (not_lt.mp h2)))⟩
  · exact ⟨iff_of_true rfl (not_lt.mp h2),
      iff_of_false (by decide) h1,
      iff_of_false (by decide) (fun h => absurd h.2 (not_lt.mpr (not_lt.mp h2)))⟩

/-- C1 witness: at `seats_sold = 100`, `time_elapsed = 0` the rate is `100`,
which is at or above the medium threshold, so the result is `High`. -/
theorem get_booking_rate_trichotomy_witness :
    (0 : ℝ) ≤ 100 ∧ (0 : ℝ) ≤ 0 ∧
    (get_booking_rate 100 0 = Rate.High ↔
      (3 * num_seats : ℝ) / (5 * time_horizon) ≤ 100 / (1 + time_factor 0)) :=
  ⟨by norm_num, le_refl 0,
    (get_booking_rate_trichotomy 100 0 (by norm_num) (le_refl 0)).1⟩

/-- C3: for every `price ≥ 0`, every segment and every competitor level,
`get_demand_probability` lies in the closed interval `[0.1, 1.0]`. -/
theorem demand_probability_mem_Icc (price : ℝ) (cs : Seg) (cl : CompLevel)
    (hp : 0 ≤ price) :
    0.1 ≤ get_demand_probability price cs cl ∧
      get_demand_probability price cs cl ≤ 1.0 := by
  rw [get_demand_probability]
  exact ⟨le_min (le_max_right _ _) (by norm_num), min_le_right _ _⟩

/-- C3 witness: the bounds hold at `price = 0`, `Economy`, `Low`. -/
theorem demand_probability_mem_Icc_witness :
    (0 : ℝ) ≤ 0 ∧
    (0.1 ≤ get_demand_probability 0 Seg.Economy CompLevel.Low ∧
      get_demand_probability 0 Seg.Economy CompLevel.Low ≤ 1.0) :=
  ⟨le_refl 0, demand_probability_mem_Icc 0 Seg.Economy CompLevel.Low (le_refl 0)⟩

/-- C8: for fixed segment and competitor level, `get_demand_probability` is
decreasing in price on `[0, ∞)`, and strictly decreasing whenever neither of
the two values is pinned at the clamp bounds `0.1` or `1.0`. -/
theorem demand_probability_antitone (cs : Seg) (cl : CompLevel) (p q : ℝ)
    (hp : 0 ≤ p) (hpq : p < q) :
    get_demand_probability q cs cl ≤ get_demand_probability p cs cl ∧
    (get_demand_probability p cs cl ≠ 0.1 → get_demand_probability p cs cl ≠ 1.0 →
      get_demand_probability q cs cl ≠ 0.1 → get_demand_probability q cs cl ≠ 1.0 →
      get_demand_probability q cs cl < get_demand_probability p cs cl) := by
  have hcore := demand_core_lt cs cl hp hpq
  constructor
  · simp only [get_demand_probability]
    exact clamp_mono hcore.le
  · intro h1 h2 h3 h4
    simp only [get_demand_probability] at h1 h2 h3 h4 ⊢
    rw [clamp_eq_self h1 h2, clamp_eq_self h3 h4]
    exact hcore

/-- C8 witness: instantiated at `p = 0 < q = 100`, `Economy`, `Low`. -/
theorem demand_probability_antitone_witness :
    (0 : ℝ) ≤ 0 ∧ (0 : ℝ) < 100 ∧
    (get_demand_probability 100 Seg.Economy CompLevel.Low ≤
        get_demand_probability 0 Seg.Economy CompLevel.Low ∧
      (get_demand_probability 0 Seg.Economy CompLevel.Low ≠ 0.1 →
        get_demand_probability 0 Seg.Economy CompLevel.Low ≠ 1.0 →
        get_demand_probability 100 Seg.Economy CompLevel.Low ≠ 0.1 →
        get_demand_probability 100 Seg.Economy CompLevel.Low ≠ 1.0 →
        get_demand_probability 100 Seg.Economy CompLevel.Low <
          get_demand_probability 0 Seg.Economy CompLevel.Low)) :=
  ⟨le_refl 0, by norm_num,
    demand_probability_antitone Seg.Economy CompLevel.Low 0 100 (le_refl 0) (by norm_num)⟩

/-- C2: at every step of every episode of the training run and for every
draw sequence, the `next_state` assembled after the time decrement lies in
the enumerated state space (its enum fields are members of their declared
lists), so the defensive `max_future_q = 0` branch is never taken: the
bootstrap always equals the maximum of the next state's Q-row. -/
theorem next_state_always_enumerated (o : ℕ → Draw) (n : ℕ) :
    nextState (o n) (trainStepN o n).2 ∈ states ∧
    (nextState (o n) (trainStepN o n).2).2.2.1 ∈ booking_rates ∧
    (nextState (o n) (trainStepN o n).2).2.2.2.1 ∈ competitor_prices ∧
    (nextState (o n) (trainStepN o n).2).2.2.2.2 ∈ customer_segments ∧
    maxFutureQ (o n) (trainStepN o n).2 =
      pymax (actions.map fun a =>
        (trainStepN o n).2.Q (nextState (o n) (trainStepN o n).2, a)) := by
  obtain ⟨hsum, htime, _⟩ := trainStepN_inv o n
  have hmem : nextState (o n) (trainStepN o n).2 ∈ states :=
    nextState_mem _ _ (by omega) htime
  refine ⟨hmem, mem_booking_rates _, mem_competitor_prices _, mem_customer_segments _, ?_⟩
  rw [maxFutureQ, if_pos hmem]

/-- C4: after construction, the Q table holds exactly one entry per pair of
the Cartesian product of the 23,634 enumerated states and the 28 actions —
661,752 entries, no duplicates, nothing else — and every stored value is
`0.0`. -/
theorem q_table_dense_zero_init :
    states.length = 23634 ∧
    qEntries.length = 661752 ∧
    (qEntries.map Prod.fst).Nodup ∧
    (∀ k : MState × ℕ, k ∈ qEntries.map Prod.fst ↔ k.1 ∈ states ∧ k.2 ∈ actions) ∧
    (∀ e ∈ qEntries, e.2 = 0.0) := by
  have hs : states.length = 23634 := by
    rw [states, statesFor_length]
    norm_num [num_seats, time_horizon]
  have ha : actions.length = 28 := by
    rw [actions, price_levels]
    simp
  refine ⟨hs, ?_, ?_, ?_, ?_⟩
  · have : qEntries.length = (qEntries.map Prod.fst).length := (List.length_map _ _).symm
    rw [this, qEntries_fst_eq, List.length_product, hs, ha]
  · rw [qEntries_fst_eq]
    exact states_nodup.product (by decide)
  · intro k
    obtain ⟨s, a⟩ := k
    rw [qEntries_fst_eq]
    exact List.mem_product
  · intro e he
    rw [qEntries, qEntriesFor_eq] at he
    rcases List.mem_map.mp he with ⟨k, _, hk⟩
    rw [← hk]

/-- C5: for every enumerated state and every tie-break draw, the Policy
Extractor assigns exactly one action (it is a function into the action list),
that action is one of the `best_actions`, and it attains the maximum Q-value
of the state's row, so a non-maximizing action is never selected. -/
theorem optimal_policy_argmax (Q : MState × ℕ → ℚ) (idx : MState → ℕ)
    (s : MState) (hs : s ∈ states) :
    optimal_policy Q idx s ∈ actions ∧
    optimal_policy Q idx s ∈ best_actions Q s ∧
    ∀ b ∈ actions, Q (s, b) ≤ Q (s, optimal_policy Q idx s) := by
  have hmem : optimal_policy Q idx s ∈ best_actions Q s :=
    pychoice_mem (best_actions_ne_nil Q s) _
  exact ⟨best_actions_subset Q s _ hmem, hmem, best_actions_maximize Q s _ hmem⟩

/-- C5 witness: the all-zero table at the state `(0, 0, Low, Low, Economy)`
with tie-break index `0`. -/
theorem optimal_policy_argmax_witness :
    ((0, 0, Rate.Low, CompLevel.Low, Seg.Economy) : MState) ∈ states ∧
    (optimal_policy (fun _ => 0) (fun _ => 0)
        (0, 0, Rate.Low, CompLevel.Low, Seg.Economy) ∈ actions ∧
      optimal_policy (fun _ => 0) (fun _ => 0)
          (0, 0, Rate.Low, CompLevel.Low, Seg.Economy) ∈
        best_actions (fun _ => 0) (0, 0, Rate.Low, CompLevel.Low, Seg.Economy) ∧
      ∀ b ∈ actions, (fun (_ : MState × ℕ) => (0 : ℚ))
          ((0, 0, Rate.Low, CompLevel.Low, Seg.Economy), b) ≤
        (fun (_ : MState × ℕ) => (0 : ℚ))
          ((0, 0, Rate.Low, CompLevel.Low, Seg.Economy),
            optimal_policy (fun _ => 0) (fun _ => 0)
              (0, 0, Rate.Low, CompLevel.Low, Seg.Economy))) := by
  have hs : ((0, 0, Rate.Low, CompLevel.Low, Seg.Economy) : MState) ∈ states :=
    (mem_states_iff 0 0 Rate.Low CompLevel.Low Seg.Economy).mpr
      ⟨Nat.zero_le _, Nat.zero_le _⟩
  exact ⟨hs, optimal_policy_argmax (fun _ => 0) (fun _ => 0) _ hs⟩

/-- C6: at every point of the training run, for every draw sequence, every
Q-value lies in `[0, max_price / (1 - gamma)]` (rewards are bounded by the
maximum price level `640`, `gamma = 0.85 ∈ [0, 1)` and `alpha = 0.15 ∈ [0, 1]`
hold by configuration), so all values remain finite throughout training. -/
theorem q_values_bounded_training (o : ℕ → Draw) (n : ℕ) (k : MState × ℕ) :
    0 ≤ (trainStepN o n).2.Q k ∧
      (trainStepN o n).2.Q k ≤ (max_price : ℚ) / (1 - gamma) :=
  (trainStepN_inv o n).2.2 k

/-- C7: for every draw sequence and every starting Q-table, an episode's
`while` loop terminates after at most `time_horizon - 1` iterations: `time`
starts at `time_horizon - 1`, strictly decreases each iteration, and the
loop requires `time > 0`. -/
theorem episode_loop_iteration_bound (o : ℕ → Draw) (Q : MState × ℕ → ℚ) :
    (runLoop o (initEp Q)).2 ≤ time_horizon - 1 :=
  runLoop_count_le o (initEp Q)

/-- C10: at every point of the training run, `seats_sold + seats_left =
num_seats` with both in `[0, num_seats]`, and each loop iteration either
decrements `seats_left` by exactly one while incrementing `seats_sold` by
exactly one (a sale) or leaves both unchanged (no sale); the only other
transition is the reset at an episode boundary. -/
theorem seats_conservation_invariant (o : ℕ → Draw) (n : ℕ) :
    (trainStepN o n).2.seats_sold + (trainStepN o n).2.seats_left = num_seats ∧
    (trainStepN o n).2.seats_left ≤ num_seats ∧
    (trainStepN o n).2.seats_sold ≤ num_seats ∧
    (((trainStepN o (n + 1)).2.seats_left + 1 = (trainStepN o n).2.seats_left ∧
        (trainStepN o (n + 1)).2.seats_sold = (trainStepN o n).2.seats_sold + 1) ∨
      ((trainStepN o (n + 1)).2.seats_left = (trainStepN o n).2.seats_left ∧
        (trainStepN o (n + 1)).2.seats_sold = (trainStepN o n).2.seats_sold) ∨
      (trainStepN o (n + 1)).2 = initEp (trainStepN o n).2.Q) := by
  obtain ⟨hsum, _, _⟩ := trainStepN_inv o n
  refine ⟨by omega, by omega, by omega, ?_⟩
  have hstep : trainStepN o (n + 1) =
      (if 0 < (trainStepN o n).2.time ∧ 0 < (trainStepN o n).2.seats_left
        then ((trainStepN o n).1, loopBody (o n) (trainStepN o n).2)
        else ((trainStepN o n).1 + 1, initEp (trainStepN o n).2.Q)) := rfl
  rw [hstep]
  split
  case isTrue hg =>
    by_cases hsale : saleOccurred (o n) (trainStepN o n).2
    · left
      constructor
      · show nextSeatsLeft (o n) (trainStepN o n).2 + 1 = (trainStepN o n).2.seats_left
        rw [nextSeatsLeft, if_pos hsale]
        omega
      · show nextSeatsSold (o n) (trainStepN o n).2 = (trainStepN o n).2.seats_sold + 1
        rw [nextSeatsSold, if_pos hsale]
    · right; left
      constructor
      · show nextSeatsLeft (o n) (trainStepN o n).2 = (trainStepN o n).2.seats_left
        rw [nextSeatsLeft, if_neg hsale]
      · show nextSeatsSold (o n) (trainStepN o n).2 = (trainStepN o n).2.seats_sold
        rw [nextSeatsSold, if_neg hsale]
  case isFalse hg =>
    right; right
    rfl

/-- C9 counterexample: with the invalid configuration `time_horizon = 0`
(non-positive), the State Space Builder does not signal a configuration error
before enumeration — it succeeds, silently enumerating 1,818 states and
allocating the full table, contradicting the claimed fail-fast behaviour. -/
theorem builder_no_error_on_invalid_config :
    buildTables num_seats 0 price_levels =
      Except.ok (statesFor num_seats 0, qEntriesFor num_seats 0 price_levels) ∧
    (statesFor num_seats 0).length = 1818 := by
  refine ⟨rfl, ?_⟩
  rw [statesFor_length]
  norm_num [num_seats]

/-- C9 amended: the source performs no configuration validation at all: for
every configuration — valid or not (non-positive horizon, empty price-level
list, ...) — the State Space Builder signals no error and silently returns
the enumeration of `(ns+1)*(th+1)*18` states and the dense table of
`(ns+1)*(th+1)*18*|pl|` zero entries. -/
theorem builder_total_enumeration (ns th : ℕ) (pl : List ℕ) :
    buildTables ns th pl = Except.ok (statesFor ns th, qEntriesFor ns th pl) ∧
    (statesFor ns th).length = (ns + 1) * ((th + 1) * 18) ∧
    (qEntriesFor ns th pl).length = (ns + 1) * ((th + 1) * 18) * pl.length := by
  refine ⟨rfl, statesFor_length ns th, ?_⟩
  rw [qEntriesFor_eq, List.length_map, List.length_product, statesFor_length]

end Claims

end DynamicPricing
